import Mathlib

/-!
Verification of the streaming lexeme-dump parse/aggregation pipeline
(`scribe_data/wiktionary/parse_dump.py`).

The Python module is shallowly embedded as follows.

* JSON values (the results of `orjson.loads` / `json.load`) are the inductive
  type `Json`.  Python dicts are association lists in insertion order:
  assigning to an existing key replaces the value in place, assigning a fresh
  key appends (`dinsert`), exactly like CPython dicts.  JSON object literals
  are parsed with last-value-wins on duplicate keys, like `orjson` / `json`.
* The processor's `word_index` (a nest of `defaultdict`s) is modelled as a
  `Json` object value; auto-vivification is made explicit in `insertIdx` and
  `vivify2`.  A Python statement that raises an exception is modelled by
  returning the state unchanged whenever the source mutates nothing before
  the raising expression (which is checked case by case against the source).
* Python string operations that the pipeline uses (`strip`, `rstrip(",")`,
  `lower`, `startswith`) are re-implemented on `List Char` so that they are
  executable by the kernel.  `lower` is modelled on ASCII letters.
* Dict keys that are non-string hashable values (possible for
  `lexicalCategory`) are modelled through their JSON-style key rendering
  (`jkey`); unhashable values (`dict`/`list`) take the `TypeError` path.
* The file system is explicit: a dump file is `Option (List String)`
  (`none` = missing path, the `FileNotFoundError` path), a saved index file
  is carried as its decoded `Json` content, and the pipeline driver returns
  the list of (path, content) writes it performs.  Reported fatal errors
  (the `except FileNotFoundError` handler of `process_file`) surface as a
  Boolean in the run result.
* The static tables `language_metadata` and `data_type_metadata` are not part
  of the sources; they are inputs, modelled from the spec: language metadata
  maps a language name to an optional top-level ISO code and an optional
  sub-language table (`MetaEntry`), the data-type table maps a category name
  to its category code.
-/

/-- JSON values, the target of the tolerant line parse.  Numeric literals are
modelled as integers (the pipeline never computes with numbers). -/
inductive Json where
  | null
  | jb (b : Bool)
  | jn (n : Int)
  | js (s : String)
  | arr (xs : List Json)
  | obj (kvs : List (String × Json))
deriving Repr

/-- Characters treated as whitespace by JSON and by the modelled `strip`. -/
def isWsChar (c : Char) : Bool :=
  c = ' ' || c = '\t' || c = '\n' || c = '\r'

/-- Drop leading JSON whitespace. -/
def skipWs (cs : List Char) : List Char :=
  cs.dropWhile isWsChar

/-- Both-sided whitespace strip on character lists (Python `str.strip()`). -/
def charTrim (cs : List Char) : List Char :=
  ((cs.dropWhile isWsChar).reverse.dropWhile isWsChar).reverse

/-- Python `str.strip()` on the model's strings. -/
def trimStr (s : String) : String :=
  String.mk (charTrim s.toList)

/-- Drop every trailing comma (Python `str.rstrip(",")`). -/
def rstripCL (cs : List Char) : List Char :=
  (cs.reverse.dropWhile (fun c => c = ',')).reverse

/-- Python `str.rstrip(",")` on the model's strings. -/
def rstripCommas (s : String) : String :=
  String.mk (rstripCL s.toList)

/-- ASCII lower-casing of one character. -/
def lowerChar (c : Char) : Char :=
  if 'A' ≤ c ∧ c ≤ 'Z' then Char.ofNat (c.toNat + 32) else c

/-- Python `str.lower()` (modelled on ASCII). -/
def strLower (s : String) : String :=
  String.mk (s.toList.map lowerChar)

/-- Lookup in a Python-dict association list (first binding of the key). -/
def dlookup {α : Type} : List (String × α) → String → Option α
  | [], _ => none
  | (k1, v1) :: rest, k => if k1 = k then some v1 else dlookup rest k

/-- Python dict assignment `d[k] = v`: replace in place if the key exists,
append otherwise. -/
def dinsert {α : Type} : List (String × α) → String → α → List (String × α)
  | [], k, v => [(k, v)]
  | (k1, v1) :: rest, k, v =>
    if k1 = k then (k, v) :: rest else (k1, v1) :: dinsert rest k v

/-- Python `d.get(k, dflt)` on a parsed JSON object's binding list. -/
def jgetD (kvs : List (String × Json)) (k : String) (dflt : Json) : Json :=
  (dlookup kvs k).getD dflt

/-- JSON string escapes accepted by the modelled parser. -/
def unescChar (c : Char) : Option Char :=
  if c = '"' then some '"'
  else if c = '\\' then some '\\'
  else if c = '/' then some '/'
  else if c = 'n' then some '\n'
  else if c = 't' then some '\t'
  else if c = 'r' then some '\r'
  else if c = 'b' then some (Char.ofNat 8)
  else if c = 'f' then some (Char.ofNat 12)
  else none

/-- Parse the body of a JSON string literal (after the opening quote). -/
def parseStrBody : List Char → List Char → Option (String × List Char)
  | _, [] => none
  | acc, c :: rest =>
    if c = '"' then some (String.mk acc.reverse, rest)
    else if c = '\\' then
      match rest with
      | [] => none
      | e :: rest2 =>
        match unescChar e with
        | some d => parseStrBody (d :: acc) rest2
        | none => none
    else parseStrBody (c :: acc) rest

/-- Take a maximal run of decimal digits. -/
def takeDigits : List Char → List Char × List Char
  | [] => ([], [])
  | c :: rest =>
    if c.isDigit then
      let (d, r) := takeDigits rest
      (c :: d, r)
    else ([], c :: rest)

/-- Numeric value of a digit run. -/
def digitsToNat (ds : List Char) : Nat :=
  ds.foldl (fun n c => n * 10 + (c.toNat - 48)) 0

/-- Parse a JSON integer literal. -/
def parseNum (cs : List Char) : Option (Json × List Char) :=
  match cs with
  | '-' :: rest =>
    let (d, r) := takeDigits rest
    if d.isEmpty then none else some (.jn (-(digitsToNat d : Int)), r)
  | _ =>
    let (d, r) := takeDigits cs
    if d.isEmpty then none else some (.jn (digitsToNat d), r)

mutual

/-- Fuelled recursive-descent parse of one JSON value. -/
def parseV : Nat → List Char → Option (Json × List Char)
  | 0, _ => none
  | f + 1, cs =>
    match skipWs cs with
    | [] => none
    | c :: rest =>
      if c = 'n' then
        match rest with
        | 'u' :: 'l' :: 'l' :: r => some (.null, r)
        | _ => none
      else if c = 't' then
        match rest with
        | 'r' :: 'u' :: 'e' :: r => some (.jb true, r)
        | _ => none
      else if c = 'f' then
        match rest with
        | 'a' :: 'l' :: 's' :: 'e' :: r => some (.jb false, r)
        | _ => none
      else if c = '"' then
        match parseStrBody [] rest with
        | some (s, r) => some (.js s, r)
        | none => none
      else if c = '[' then
        match skipWs rest with
        | ']' :: r => some (.arr [], r)
        | cs2 => parseItems f cs2 []
      else if c = '{' then
        match skipWs rest with
        | '}' :: r => some (.obj [], r)
        | cs2 => parseMembers f cs2 []
      else parseNum (c :: rest)

/-- Fuelled parse of the remaining items of a JSON array. -/
def parseItems : Nat → List Char → List Json → Option (Json × List Char)
  | 0, _, _ => none
  | f + 1, cs, acc =>
    match parseV f cs with
    | none => none
    | some (v, r) =>
      match skipWs r with
      | ',' :: r2 => parseItems f r2 (acc ++ [v])
      | ']' :: r2 => some (.arr (acc ++ [v]), r2)
      | _ => none

/-- Fuelled parse of the remaining members of a JSON object; duplicate keys
behave like repeated Python dict assignment. -/
def parseMembers : Nat → List Char → List (String × Json) → Option (Json × List Char)
  | 0, _, _ => none
  | f + 1, cs, acc =>
    match skipWs cs with
    | '"' :: r =>
      match parseStrBody [] r with
      | none => none
      | some (k, r2) =>
        match skipWs r2 with
        | ':' :: r3 =>
          match parseV f r3 with
          | none => none
          | some (v, r4) =>
            match skipWs r4 with
            | ',' :: r5 => parseMembers f r5 (dinsert acc k v)
            | '}' :: r5 => some (.obj (dinsert acc k v), r5)
            | _ => none
        | _ => none
    | _ => none

end

/-- Strict whole-input JSON parse, the model of `orjson.loads` / `json.load`:
one value, optionally surrounded by whitespace, nothing after it. -/
def jparse (s : String) : Option Json :=
  let cs := s.toList
  match parseV (2 * cs.length + 4) cs with
  | some (v, r) => if (skipWs r).isEmpty then some v else none
  | none => none

/-- Python truthiness of a JSON value (`if not x`). -/
def truthy : Json → Bool
  | .null => false
  | .jb b => b
  | .jn n => if n = 0 then false else true
  | .js s => if s = ("") then false else true
  | .arr [] => false
  | .arr (_ :: _) => true
  | .obj [] => false
  | .obj (_ :: _) => true

/-- Rendering of a hashable JSON value used as a Python dict key
(`word_index[word][word_lang][datatype]`).  Objects and arrays are
unhashable (`TypeError`), yielding `none`. -/
def jkey : Json → Option String
  | .js s => some s
  | .jn n => some (toString n)
  | .jb true => some ("true")
  | .jb false => some ("false")
  | .null => some ("null")
  | .arr _ => none
  | .obj _ => none

/-- Key lookup on a JSON value when it is an object. -/
def jget (j : Json) (k : String) : Option Json :=
  match j with
  | .obj l => dlookup l k
  | _ => none

/-- Three-level point lookup in a word index: word, language, category. -/
def lookup3 (idx : Json) (w l c : String) : Option Json :=
  (jget idx w).bind (fun j2 => (jget j2 l).bind (fun j3 => jget j3 c))

/-- `LexemeProcessor.get_word_info`: `self.word_index.get(word.lower(), {})`. -/
def getWordInfo (idx : Json) (w : String) : Json :=
  match idx with
  | .obj l1 => (dlookup l1 (strLower w)).getD (.obj [])
  | _ => .obj []

/-- Effect of `self.word_index[word][word_lang][datatype] = translations` on
the auto-vivifying nest: intermediate levels are created as needed; if an
existing intermediate value is not a dict the subscript raises before any
mutation, leaving the index unchanged. -/
def insertIdx (idx : Json) (w l c : String) (t : Json) : Json :=
  match idx with
  | .obj l1 =>
    match dlookup l1 w with
    | none => .obj (dinsert l1 w (.obj [(l, .obj [(c, t)])]))
    | some (.obj l2) =>
      match dlookup l2 l with
      | none => .obj (dinsert l1 w (.obj (dinsert l2 l (.obj [(c, t)]))))
      | some (.obj l3) => .obj (dinsert l1 w (.obj (dinsert l2 l (.obj (dinsert l3 c t)))))
      | some _ => idx
    | some _ => idx
  | _ => idx

/-- Effect of the same statement when `datatype` is unhashable: the first two
subscripts have already auto-vivified their levels when the final assignment
raises `TypeError`. -/
def vivify2 (idx : Json) (w l : String) : Json :=
  match idx with
  | .obj l1 =>
    match dlookup l1 w with
    | none => .obj (dinsert l1 w (.obj [(l, .obj [])]))
    | some (.obj l2) =>
      match dlookup l2 l with
      | none => .obj (dinsert l1 w (.obj (dinsert l2 l (.obj []))))
      | some _ => idx
    | some _ => idx
  | _ => idx

/-- An ISO-code registry (`iso_to_name`): ISO code to canonical name. -/
abbrev Registry := List (String × String)

/-- Fold of one sense's gloss dict into the running translations dict:
keep only gloss languages known to the registry; `gloss["value"]` on a
non-dict or on a dict without the key raises (`none`). -/
def glossFold (reg : Registry) : List (String × Json) → List (String × Json) → Option (List (String × Json))
  | [], acc => some acc
  | (lc, g) :: rest, acc =>
    if (dlookup reg lc).isSome then
      match g with
      | .obj gkvs =>
        match dlookup gkvs ("value") with
        | some v => glossFold reg rest (dinsert acc lc v)
        | none => none
      | _ => none
    else glossFold reg rest acc

/-- Fold over the senses list (`for sense in senses`): each sense must be a
dict whose `glosses` entry is a dict, otherwise the iteration raises. -/
def sensesFold (reg : Registry) : List Json → List (String × Json) → Option (List (String × Json))
  | [], acc => some acc
  | .obj skvs :: rest, acc =>
    match jgetD skvs ("glosses") (.obj []) with
    | .obj gkvs =>
      match glossFold reg gkvs acc with
      | some acc2 => sensesFold reg rest acc2
      | none => none
    | _ => none
  | _ :: _, _ => none

/-- Collect the translations of all senses; a non-list `senses` value either
iterates vacuously or raises, and in both cases the lexeme contributes
nothing, which `none` models. -/
def collectSenses (reg : Registry) : Json → Option (List (String × Json))
  | .arr ss => sensesFold reg ss []
  | _ => none

/-- `LexemeProcessor._process_lexeme_translations`, as a function from the
current `word_index` to the new one.  Every exception path of the source
mutates nothing and is mapped to the unchanged index. -/
def processTrans (reg : Registry) (idx : Json) (lex : Json) : Json :=
  match lex with
  | .obj kvs =>
    let lemmas := jgetD kvs ("lemmas") (.obj [])
    let datatype := jgetD kvs ("lexicalCategory") .null
    let senses := jgetD kvs ("senses") (.arr [])
    if !(truthy lemmas) || !(truthy datatype) then idx
    else
      match lemmas with
      | .obj ((_, .obj flkvs) :: _) =>
        match jgetD flkvs ("value") (.js ("")) with
        | .js w0 =>
          match jgetD flkvs ("language") (.js ("")) with
          | .js wl =>
            if strLower w0 = ("") then idx
            else if (dlookup reg wl).isNone then idx
            else
              match collectSenses reg senses with
              | none => idx
              | some tr =>
                if tr.isEmpty then idx
                else
                  match jkey datatype with
                  | some ck => insertIdx idx (strLower w0) wl ck (.obj tr)
                  | none => vivify2 idx (strLower w0) wl
          | .jn _ => idx
          | .jb _ => idx
          | .null => idx
          | .arr _ => idx
          | .obj _ => idx
        | _ => idx
      | _ => idx
  | _ => idx

/-- Per-language category tallies (`lexical_category_counts`). -/
abbrev Counts := List (String × List (String × Nat))

/-- First data-type name whose code equals the given category code
(the `next(...)` generator over `data_type_metadata.items()`). -/
def catName (dtm : List (String × String)) (c : String) : Option String :=
  match dtm with
  | [] => none
  | (k, q) :: rest => if q = c then some k else catName rest c

/-- One increment of `lexical_category_counts[lang][category_name]`. -/
def bump (counts : Counts) (lg k : String) : Counts :=
  let inner := (dlookup counts lg).getD []
  dinsert counts lg (dinsert inner k ((dlookup inner k).getD 0 + 1))

/-- Current tally cell value. -/
def countAt (counts : Counts) (lg k : String) : Nat :=
  (dlookup ((dlookup counts lg).getD []) k).getD 0

/-- The `for lemma in lemmas.values()` loop of
`LexemeProcessor._process_lexeme_total`: count once for the first lemma whose
language is in the registry, then stop; an unhashable `language` value or a
non-dict lemma raises, mutating nothing. -/
def totalScan (reg : Registry) (dtm : List (String × String)) (c : String) (counts : Counts) : List Json → Counts
  | [] => counts
  | .obj lk :: rest =>
    match dlookup lk ("language") with
    | some (.js lg) =>
      if (dlookup reg lg).isSome then
        match catName dtm c with
        | some k => if k = ("") then counts else bump counts lg k
        | none => counts
      else totalScan reg dtm c counts rest
    | some (.arr _) => counts
    | some (.obj _) => counts
    | _ => totalScan reg dtm c counts rest
  | _ :: _ => counts

/-- `LexemeProcessor._process_lexeme_total` as a function on the tallies. -/
def processTotal (reg : Registry) (dtm : List (String × String)) (counts : Counts) (lex : Json) : Counts :=
  match lex with
  | .obj kvs =>
    match dlookup kvs ("lexicalCategory") with
    | some (.js c) =>
      if c = ("") then counts
      else if (catName dtm c).isNone then counts
      else
        match jgetD kvs ("lemmas") (.obj []) with
        | .obj lkvs => totalScan reg dtm c counts (lkvs.map Prod.snd)
        | _ => counts
    | _ => counts
  | _ => counts

/-- The mutable state a batch run folds over: the translation index and the
category tallies. -/
structure PState where
  word_index : Json
  counts : Counts

/-- Per-run configuration: the registry built in `__init__`, the parse type,
and the data-type table. -/
structure Config where
  iso_to_name : Registry
  parse_type : Option String
  dtm : List (String × String)

/-- `LexemeProcessor.process_lines`: strip whitespace and trailing commas,
parse as JSON, dispatch on the parse type; any failure (including every
exception of the dispatched processor) leaves the state unchanged. -/
def processLines (cfg : Config) (st : PState) (line : String) : PState :=
  match jparse (rstripCommas (trimStr line)) with
  | none => st
  | some lex =>
    if cfg.parse_type = some ("translations") then
      { word_index := processTrans cfg.iso_to_name st.word_index lex, counts := st.counts }
    else if cfg.parse_type = some ("total") then
      { word_index := st.word_index, counts := processTotal cfg.iso_to_name cfg.dtm st.counts lex }
    else st

/-- `LexemeProcessor._process_batch`: each batch element is processed
independently, in order. -/
def processBatch (cfg : Config) (st : PState) (batch : List String) : PState :=
  batch.foldl (processLines cfg) st

/-- Structural JSON lines skipped by the reader
(`stripped_line in ["]", "[", ",", ""]`). -/
def structuralLine (l : String) : Bool :=
  let t := charTrim l.toList
  t = [] || t = [']'] || t = ['['] || t = [',']

/-- The batching loop of `LexemeProcessor.process_file`: skip structural
lines, accumulate a batch, flush it at the batch size, flush the remainder
at end of stream. -/
def runLoop (cfg : Config) (bs : Nat) (st : PState) (batch : List String) : List String → PState
  | [] => if batch.isEmpty then st else processBatch cfg st batch
  | l :: ls =>
    if structuralLine l then runLoop cfg bs st batch ls
    else
      let b2 := batch ++ [l]
      if bs ≤ b2.length then runLoop cfg bs (processBatch cfg st b2) [] ls
      else runLoop cfg bs st b2 ls

/-- `first_line.strip().startswith("[")`. -/
def headerStarts (l : String) : Bool :=
  match charTrim l.toList with
  | '[' :: _ => true
  | _ => false

/-- The first-line probe of `process_file`: a first line that starts with a
bracket is consumed, otherwise the stream is rewound. -/
def dropHeader : List String → List String
  | [] => []
  | first :: rest => if headerStarts first then rest else first :: rest

/-- `LexemeProcessor.process_file` on an explicit file system: a missing dump
path takes the `FileNotFoundError` handler, which reports the error (second
component `true`) and leaves the state untouched. -/
def processFile (cfg : Config) (bs : Nat) (st : PState) (dump : Option (List String)) : PState × Bool :=
  match dump with
  | none => (st, true)
  | some lines => (runLoop cfg bs st [] (dropHeader lines), false)

/-- Modelled from the spec: one entry of the static `language_metadata`
table (not part of the sources) — a language name owns an optional top-level
ISO code and/or an optional sub-language table whose entries each carry an
optional ISO code. -/
structure MetaEntry where
  iso : Option String
  sub_languages : Option (List (String × Option String))

/-- The inner sub-language loop of `LexemeProcessor.__init__`. -/
def subFold (name : String) : List (String × Option String) → Registry → Registry
  | [], acc => acc
  | (_, some i) :: rest, acc => subFold name rest (dinsert acc i name)
  | (_, none) :: rest, acc => subFold name rest acc

/-- The registry-building loop of `LexemeProcessor.__init__`.  A matching
target entry stops the loop; `data["iso"]` on a target entry without a
top-level code raises `KeyError`, modelled as `Except.error`. -/
def buildRegistry (target : Option String) : List (String × MetaEntry) → Registry → Except Unit Registry
  | [], acc => .ok acc
  | (name, d) :: rest, acc =>
    if target = some name then
      match d.iso with
      | some i => .ok (dinsert acc i name)
      | none => .error ()
    else
      match target with
      | some _ => buildRegistry target rest acc
      | none =>
        match d.iso with
        | some i => buildRegistry target rest (dinsert acc i name)
        | none =>
          match d.sub_languages with
          | some subs => buildRegistry target rest (subFold name subs acc)
          | none => buildRegistry target rest acc

/-- `LexemeProcessor._recursive_update` applied to a fresh empty nest: every
dict value is rebuilt level by level in key order, other values are assigned
directly. -/
def loadShape : Json → Json
  | .obj kvs => .obj (kvs.attach.map (fun p => (p.1.1, loadShape p.1.2)))
  | v => v
termination_by j => sizeOf j
decreasing_by
  obtain ⟨⟨a, b⟩, hp⟩ := p
  have h1 := List.sizeOf_lt_of_mem hp
  simp [Prod.mk.sizeOf_spec, Json.obj.sizeOf_spec] at h1 ⊢
  omega

/-- `LexemeProcessor._convert_defaultdict_to_dict`: rebuild every (default)
dict node, leaving the mapping content unchanged. -/
def convertDD : Json → Json
  | .obj kvs => .obj (kvs.attach.map (fun p => (p.1.1, convertDD p.1.2)))
  | v => v
termination_by j => sizeOf j
decreasing_by
  obtain ⟨⟨a, b⟩, hp⟩ := p
  have h1 := List.sizeOf_lt_of_mem hp
  simp [Prod.mk.sizeOf_spec, Json.obj.sizeOf_spec] at h1 ⊢
  omega

/-- Content written by the unfiltered `save_index` branch.  The JSON text
encoding (`json.dump` / `json.load`) is faithful on these trees, so file
contents are carried as `Json` values. -/
def savedContent (idx : Json) : Json :=
  convertDD idx

/-- `LexemeProcessor.load_index` applied to successfully decoded file
content: `json.load` yields the content, a fresh nest replaces `word_index`,
then `_recursive_update` fills it; content that is valid JSON but not an
object leaves the freshly reset (empty) nest behind, because `.items()`
raises only after the reset. -/
def loadFromContent (content : Json) : Json :=
  match content with
  | .obj kvs => loadShape (.obj kvs)
  | _ => .obj []

/-- `LexemeProcessor.load_index` on an explicit file: a missing file
(`none`) or undecodable text raises before `word_index` is reassigned, so
the prior index survives; the handler only reports the error. -/
def loadResult (prior : Json) (file : Option String) : Json :=
  match file with
  | none => prior
  | some s =>
    match jparse s with
    | none => prior
    | some c => loadFromContent c

/-- The filtered view built by `save_index` for one language code. -/
def filteredIndex (idx : Json) (iso : String) : Json :=
  match idx with
  | .obj l1 =>
    .obj (l1.filterMap (fun p =>
      match p.2 with
      | .obj l2 =>
        match dlookup l2 iso with
        | some v => some (p.1, Json.obj [(iso, v)])
        | none => none
      | _ => none))
  | _ => .obj []

/-- The write performed by `save_index(filepath, language_iso)`: an unknown
ISO code is rejected with a warning and no write; a known one writes the
filtered view under `parent / canonical-name / filename`.  Paths are lists
of segments. -/
def saveIndexWrite (reg : Registry) (idx : Json) (outdir fname iso : String) : Option (List String × Json) :=
  match dlookup reg iso with
  | some nm => some ([outdir, nm, fname], filteredIndex idx iso)
  | none => none

/-- All language codes appearing as second-level keys of the index, in first
occurrence order. -/
def langKeysRaw : List (String × Json) → List String
  | [] => []
  | (_, .obj l2) :: rest => l2.map Prod.fst ++ langKeysRaw rest
  | _ :: rest => langKeysRaw rest

/-- The `iso_codes` set collected by `parse_dump` (Python set iteration is
modelled by order-insensitive deduplication; all theorems below use only
membership). -/
def langKeysOf : Json → List String
  | .obj l1 => (langKeysRaw l1).dedup
  | _ => []

/-- The announced index file name `lexeme_index_{parse_type}.json`. -/
def indexFileName (pt : Option String) : String :=
  ("lexeme_index_") ++ pt.getD ("None") ++ (".json")

/-- Observable outcome of one `parse_dump` run: the index files written
(path segments with content) and whether a fatal configuration error was
reported. -/
structure RunResult where
  writes : List (List String × Json)
  configError : Bool

/-- The `word_index` built by a `parse_dump` run in its non-total branch. -/
def builtIndex (meta : List (String × MetaEntry)) (dtm : List (String × String))
    (language parse_type : Option String) (dump : Option (List String)) : Json :=
  match buildRegistry language meta [] with
  | .ok reg =>
    (processFile { iso_to_name := reg, parse_type := parse_type, dtm := dtm } 1000
      { word_index := .obj [], counts := [] } dump).1.word_index
  | .error _ => .obj []

/-- The `parse_dump` driver.  The total branch only tallies and writes
nothing; the other branch processes the dump and then writes one
per-language file for each ISO code found in the built index that the
registry knows.  A `KeyError` escaping `LexemeProcessor.__init__` is
`Except.error`. -/
def parseDump (meta : List (String × MetaEntry)) (dtm : List (String × String))
    (language parse_type : Option String) (outdir : String)
    (dump : Option (List String)) : Except Unit RunResult :=
  if parse_type = some ("total") then
    match buildRegistry (if language = some ("all") then none else language) meta [] with
    | .error e => .error e
    | .ok reg =>
      let res := processFile { iso_to_name := reg, parse_type := parse_type, dtm := dtm } 1000
        { word_index := .obj [], counts := [] } dump
      .ok { writes := [], configError := res.2 }
  else
    match buildRegistry language meta [] with
    | .error e => .error e
    | .ok reg =>
      let res := processFile { iso_to_name := reg, parse_type := parse_type, dtm := dtm } 1000
        { word_index := .obj [], counts := [] } dump
      let idx := res.1.word_index
      .ok { writes := (langKeysOf idx).filterMap (saveIndexWrite reg idx outdir (indexFileName parse_type)),
            configError := res.2 }

/-- Registry invariant at the translations level: every gloss-language key
is known to the registry. -/
def lvl4OK (reg : Registry) : Json → Bool
  | .obj l4 => l4.all (fun p => (dlookup reg p.1).isSome)
  | _ => true

/-- Registry invariant at the category level of one word/language cell. -/
def catMapOK (reg : Registry) : Json → Bool
  | .obj l3 => l3.all (fun q => lvl4OK reg q.2)
  | _ => true

/-- Registry invariant at the language level of one word's cell: every
language key is known and every category map below it is fine. -/
def wordValOK (reg : Registry) : Json → Bool
  | .obj l2 => l2.all (fun p => (dlookup reg p.1).isSome && catMapOK reg p.2)
  | _ => true

/-- Registry invariant of the whole index: every ISO code appearing as a
language key at either language level is known to the registry. -/
def idxKeysOK (reg : Registry) : Json → Bool
  | .obj l1 => l1.all (fun p => wordValOK reg p.2)
  | _ => true

/-- Shape of an aggregator-built index down to the category level: the root
and the first two value levels are objects. -/
def idxShaped : Json → Bool
  | .obj l1 =>
    l1.all (fun p =>
      match p.2 with
      | .obj l2 =>
        l2.all (fun q =>
          match q.2 with
          | .obj _ => true
          | _ => false)
      | _ => false)
  | _ => false

/-- Clean first registry-language hit of the `for lemma in lemmas.values()`
loop: `some lg` when a lemma with a known language is reached without any
raising lemma before it. -/
def cleanFirst (reg : Registry) : List Json → Option String
  | [] => none
  | .obj lk :: rest =>
    match dlookup lk ("language") with
    | some (.js lg) =>
      if (dlookup reg lg).isSome then some lg else cleanFirst reg rest
    | some (.arr _) => none
    | some (.obj _) => none
    | _ => cleanFirst reg rest
  | _ :: _ => none

/-- Test registry: English only. -/
def reg0 : Registry := [(("en"), ("english"))]

/-- Test data-type table. -/
def dtm0 : List (String × String) := [(("nouns"), ("Q1000")), (("verbs"), ("Q2000"))]

/-- Translation-mode configuration over `reg0`. -/
def cfg0 : Config := { iso_to_name := reg0, parse_type := some ("translations"), dtm := dtm0 }

/-- Fresh processor state. -/
def st0 : PState := { word_index := .obj [], counts := [] }

/-- A well-formed dump line (one lexeme, no trailing comma). -/
def lineOk : String := "\x7b\"lemmas\": \x7b\"en\": \x7b\"value\": \"Hello\", \"language\": \"en\"\x7d\x7d, \"lexicalCategory\": \"Q1\", \"senses\": [\x7b\"glosses\": \x7b\"en\": \x7b\"value\": \"greeting\"\x7d\x7d\x7d]\x7d"

/-- The same lexeme line with two trailing commas. -/
def line0 : String := lineOk ++ (",,")

/-- First lemma object of `lineOk`. -/
def flkvs0 : List (String × Json) := [(("value"), Json.js ("Hello")), (("language"), Json.js ("en"))]

/-- Senses list of `lineOk`. -/
def ss0 : List Json := [Json.obj [(("glosses"), Json.obj [(("en"), Json.obj [(("value"), Json.js ("greeting"))])])]]

/-- Parsed object of `lineOk`. -/
def kvs0 : List (String × Json) :=
  [(("lemmas"), Json.obj [(("en"), Json.obj flkvs0)]),
   (("lexicalCategory"), Json.js ("Q1")),
   (("senses"), Json.arr ss0)]

/-- Collected translations of `lineOk`. -/
def tr0 : List (String × Json) := [(("en"), Json.js ("greeting"))]

/-- A lexeme line whose anchor language `de` is not in `reg0`. -/
def lineDe : String := "\x7b\"lemmas\": \x7b\"de\": \x7b\"value\": \"Hallo\", \"language\": \"de\"\x7d\x7d, \"lexicalCategory\": \"Q1\", \"senses\": [\x7b\"glosses\": \x7b\"en\": \x7b\"value\": \"greeting\"\x7d\x7d\x7d]\x7d"

/-- First lemma object of `lineDe`. -/
def flkvsDe : List (String × Json) := [(("value"), Json.js ("Hallo")), (("language"), Json.js ("de"))]

/-- Parsed object of `lineDe`. -/
def kvsDe : List (String × Json) :=
  [(("lemmas"), Json.obj [(("de"), Json.obj flkvsDe)]),
   (("lexicalCategory"), Json.js ("Q1")),
   (("senses"), Json.arr ss0)]

/-- A total-mode lexeme object: one English lemma of category `Q2000`. -/
def lkvsT : List (String × Json) :=
  [(("en"), Json.obj [(("value"), Json.js ("run")), (("language"), Json.js ("en"))])]

/-- Parsed total-mode lexeme. -/
def kvsT : List (String × Json) :=
  [(("lemmas"), Json.obj lkvsT), (("lexicalCategory"), Json.js ("Q2000"))]

/-- A store holding one word, used to exercise reload behaviour. -/
def prior0 : Json :=
  .obj [(("hi"), Json.obj [(("en"), Json.obj [(("Q1"), Json.obj [(("en"), Json.js ("x"))])])])]

/-- Modelled from the spec: a one-language metadata table with a top-level
ISO code. -/
def meta0 : List (String × MetaEntry) :=
  [(("english"), { iso := some ("en"), sub_languages := none })]

/-- Modelled from the spec: a language represented only via sub-languages
(the shape the real table uses for e.g. Norwegian). -/
def metaN : List (String × MetaEntry) :=
  [(("norwegian"), { iso := none, sub_languages := some [(("bokmaal"), some ("nb"))] })]

/-- Index built from `lineOk` alone. -/
def idx1 : Json :=
  .obj [(("hello"), Json.obj [(("en"), Json.obj [(("Q1"), Json.obj [(("en"), Json.js ("greeting"))])])])]

/-- Run result of the one-line translation run over `meta0`. -/
def rw1 : RunResult :=
  { writes := [([("out"), ("english"), ("lexeme_index_translations.json")], idx1)],
    configError := false }

theorem dlookup_dinsert_self {α : Type} (l : List (String × α)) (k : String) (v : α) :
    dlookup (dinsert l k v) k = some v := by
  induction l with
  | nil => simp [dinsert, dlookup]
  | cons p rest ih =>
    obtain ⟨k1, v1⟩ := p
    by_cases h : k1 = k
    · simp [dinsert, h, dlookup]
    · simp [dinsert, h, dlookup, ih]

theorem dlookup_dinsert_ne {α : Type} (l : List (String × α)) (k k' : String) (v : α)
    (h : k' ≠ k) : dlookup (dinsert l k v) k' = dlookup l k' := by
  induction l with
  | nil => simp [dinsert, dlookup, Ne.symm h]
  | cons p rest ih =>
    obtain ⟨k1, v1⟩ := p
    by_cases h1 : k1 = k
    · subst h1
      simp [dinsert, dlookup, Ne.symm h]
    · by_cases h2 : k1 = k'
      · subst h2
        simp [dinsert, dlookup, h1]
      · simp [dinsert, dlookup, h1, h2, ih]

theorem mem_dinsert {α : Type} {p : String × α} {k : String} {v : α} :
    ∀ {l : List (String × α)}, p ∈ dinsert l k v → p = (k, v) ∨ p ∈ l := by
  intro l
  induction l with
  | nil => simp [dinsert]
  | cons q rest ih =>
    obtain ⟨k1, v1⟩ := q
    by_cases h : k1 = k
    · simp only [dinsert, h, if_pos rfl]
      intro hm
      rcases List.mem_cons.1 hm with h1 | h1
      · exact Or.inl h1
      · exact Or.inr (List.mem_cons_of_mem _ h1)
    · simp only [dinsert, if_neg h]
      intro hm
      rcases List.mem_cons.1 hm with h1 | h1
      · exact Or.inr (h1 ▸ List.mem_cons_self _ _)
      · rcases ih h1 with h2 | h2
        · exact Or.inl h2
        · exact Or.inr (List.mem_cons_of_mem _ h2)

theorem all_dinsert {α : Type} (P : String × α → Bool) (l : List (String × α))
    (k : String) (v : α) (hl : l.all P = true) (hp : P (k, v) = true) :
    (dinsert l k v).all P = true := by
  rw [List.all_eq_true] at hl ⊢
  intro p hm
  rcases mem_dinsert hm with h | h
  · exact h ▸ hp
  · exact hl p h

theorem dlookup_mem {α : Type} {k : String} {v : α} :
    ∀ {l : List (String × α)}, dlookup l k = some v → (k, v) ∈ l := by
  intro l
  induction l with
  | nil => simp [dlookup]
  | cons q rest ih =>
    obtain ⟨k1, v1⟩ := q
    by_cases h : k1 = k
    · subst h
      simp [dlookup]
      intro hv
      exact Or.inl hv.symm
    · simp only [dlookup, if_neg h]
      intro hm
      exact List.mem_cons_of_mem _ (ih hm)

theorem glossFold_lvl4OK (reg : Registry) :
    ∀ (gl : List (String × Json)) (acc acc' : List (String × Json)),
      glossFold reg gl acc = some acc' →
      lvl4OK reg (.obj acc) = true → lvl4OK reg (.obj acc') = true := by
  intro gl
  induction gl with
  | nil =>
    intro acc acc' h hOK
    simp [glossFold] at h
    exact h ▸ hOK
  | cons p rest ih =>
    intro acc acc' h hOK
    obtain ⟨lc, g⟩ := p
    by_cases hk : (dlookup reg lc).isSome = true
    · simp only [glossFold, if_pos hk] at h
      split at h
      · split at h
        · refine ih _ _ h ?_
          simp only [lvl4OK] at hOK ⊢
          exact all_dinsert _ _ _ _ hOK hk
        · cases h
      · cases h
    · simp only [glossFold, if_neg hk] at h
      exact ih _ _ h hOK

theorem sensesFold_lvl4OK (reg : Registry) :
    ∀ (ss : List Json) (acc acc' : List (String × Json)),
      sensesFold reg ss acc = some acc' →
      lvl4OK reg (.obj acc) = true → lvl4OK reg (.obj acc') = true := by
  intro ss
  induction ss with
  | nil =>
    intro acc acc' h hOK
    simp [sensesFold] at h
    exact h ▸ hOK
  | cons s rest ih =>
    intro acc acc' h hOK
    cases s with
    | obj skvs =>
      simp only [sensesFold] at h
      split at h
      · split at h
        · rename_i acc2 hgf
          exact ih _ _ h (glossFold_lvl4OK reg _ _ _ hgf hOK)
        · cases h
      · cases h
    | null => simp [sensesFold] at h
    | jb b => simp [sensesFold] at h
    | jn n => simp [sensesFold] at h
    | js s2 => simp [sensesFold] at h
    | arr xs => simp [sensesFold] at h

theorem collectSenses_lvl4OK (reg : Registry) (senses : Json) (tr : List (String × Json))
    (h : collectSenses reg senses = some tr) : lvl4OK reg (.obj tr) = true := by
  match senses, h with
  | .arr ss, h =>
    exact sensesFold_lvl4OK reg ss [] tr h (by simp [lvl4OK])

theorem insertIdx_keysOK (reg : Registry) (idx : Json) (w l c : String) (t : Json)
    (hidx : idxKeysOK reg idx = true) (hl : (dlookup reg l).isSome = true)
    (ht : lvl4OK reg t = true) : idxKeysOK reg (insertIdx idx w l c t) = true := by
  match idx with
  | .null | .jb _ | .jn _ | .js _ | .arr _ => simpa [insertIdx] using hidx
  | .obj l1 =>
    simp only [idxKeysOK] at hidx
    match h1 : dlookup l1 w with
    | none =>
      simp only [insertIdx, h1, idxKeysOK]
      refine all_dinsert _ _ _ _ hidx ?_
      simp [wordValOK, catMapOK, hl, ht]
    | some (.obj l2) =>
      have hw2 : wordValOK reg (.obj l2) = true := by
        have := (List.all_eq_true.1 hidx) _ (dlookup_mem h1)
        exact this
      simp only [wordValOK] at hw2
      match h2 : dlookup l2 l with
      | none =>
        simp only [insertIdx, h1, h2, idxKeysOK]
        refine all_dinsert _ _ _ _ hidx ?_
        simp only [wordValOK]
        refine all_dinsert _ _ _ _ hw2 ?_
        simp [catMapOK, hl, ht]
      | some (.obj l3) =>
        have hcm : catMapOK reg (.obj l3) = true := by
          have := (List.all_eq_true.1 hw2) _ (dlookup_mem h2)
          simp only [Bool.and_eq_true] at this
          exact this.2
        simp only [catMapOK] at hcm
        simp only [insertIdx, h1, h2, idxKeysOK]
        refine all_dinsert _ _ _ _ hidx ?_
        simp only [wordValOK]
        refine all_dinsert _ _ _ _ hw2 ?_
        simp only [Bool.and_eq_true, hl, true_and, catMapOK]
        exact all_dinsert _ _ _ _ hcm ht
      | some .null | some (.jb _) | some (.jn _) | some (.js _) | some (.arr _) =>
        simp only [insertIdx, h1, h2, idxKeysOK]
        exact hidx
    | some .null | some (.jb _) | some (.jn _) | some (.js _) | some (.arr _) =>
      simp only [insertIdx, h1, idxKeysOK]
      exact hidx

theorem vivify2_keysOK (reg : Registry) (idx : Json) (w l : String)
    (hidx : idxKeysOK reg idx = true) (hl : (dlookup reg l).isSome = true) :
    idxKeysOK reg (vivify2 idx w l) = true := by
  match idx with
  | .null | .jb _ | .jn _ | .js _ | .arr _ => simpa [vivify2] using hidx
  | .obj l1 =>
    simp only [idxKeysOK] at hidx
    match h1 : dlookup l1 w with
    | none =>
      simp only [vivify2, h1, idxKeysOK]
      refine all_dinsert _ _ _ _ hidx ?_
      simp [wordValOK, catMapOK, hl]
    | some (.obj l2) =>
      have hw2 : wordValOK reg (.obj l2) = true := by
        have := (List.all_eq_true.1 hidx) _ (dlookup_mem h1)
        exact this
      simp only [wordValOK] at hw2
      match h2 : dlookup l2 l with
      | none =>
        simp only [vivify2, h1, h2, idxKeysOK]
        refine all_dinsert _ _ _ _ hidx ?_
        simp only [wordValOK]
        refine all_dinsert _ _ _ _ hw2 ?_
        simp [catMapOK, hl]
      | some v2 =>
        have : vivify2 (.obj l1) w l = .obj l1 := by
          cases v2 <;> simp [vivify2, h1, h2]
        rw [this]
        simpa [idxKeysOK] using hidx
    | some .null | some (.jb _) | some (.jn _) | some (.js _) | some (.arr _) =>
      simp only [vivify2, h1, idxKeysOK]
      exact hidx

theorem processTrans_keysOK (reg : Registry) (idx lex : Json)
    (hidx : idxKeysOK reg idx = true) :
    idxKeysOK reg (processTrans reg idx lex) = true := by
  cases lex with
  | obj kvs =>
    simp only [processTrans]
    repeat' split
    all_goals try exact hidx
    · rename_i hlang xo tr2 htr hne xk ck2 hck
      refine insertIdx_keysOK reg _ _ _ _ _ hidx ?_ ?_
      · exact Option.ne_none_iff_isSome.1 (fun hn => hlang (by simp [hn]))
      · exact collectSenses_lvl4OK reg _ _ htr
    · rename_i hlang xo tr2 htr hne xk hck
      refine vivify2_keysOK reg _ _ _ hidx ?_
      exact Option.ne_none_iff_isSome.1 (fun hn => hlang (by simp [hn]))
  | null => simpa [processTrans] using hidx
  | jb b => simpa [processTrans] using hidx
  | jn n => simpa [processTrans] using hidx
  | js s => simpa [processTrans] using hidx
  | arr xs => simpa [processTrans] using hidx

theorem processLines_keysOK (cfg : Config) (st : PState) (line : String)
    (h : idxKeysOK cfg.iso_to_name st.word_index = true) :
    idxKeysOK cfg.iso_to_name (processLines cfg st line).word_index = true := by
  simp only [processLines]
  split
  · exact h
  · split
    · exact processTrans_keysOK _ _ _ h
    · split
      · exact h
      · exact h

theorem processBatch_keysOK (cfg : Config) :
    ∀ (batch : List String) (st : PState),
      idxKeysOK cfg.iso_to_name st.word_index = true →
      idxKeysOK cfg.iso_to_name (processBatch cfg st batch).word_index = true := by
  intro batch
  induction batch with
  | nil => intro st h; exact h
  | cons l rest ih =>
    intro st h
    simp only [processBatch, List.foldl_cons]
    exact ih _ (processLines_keysOK _ _ _ h)

theorem runLoop_eq (cfg : Config) (bs : Nat) :
    ∀ (lines : List String) (st : PState) (batch : List String),
      runLoop cfg bs st batch lines =
        processBatch cfg st (batch ++ lines.filter (fun l => !structuralLine l)) := by
  intro lines
  induction lines with
  | nil =>
    intro st batch
    simp only [runLoop, List.filter_nil, List.append_nil]
    by_cases hb : batch.isEmpty
    · rw [if_pos hb]
      rw [List.isEmpty_iff.1 hb]
      rfl
    · rw [if_neg hb]
  | cons l ls ih =>
    intro st batch
    by_cases hs : structuralLine l = true
    · simp only [runLoop, if_pos hs, List.filter_cons, hs, Bool.not_true, ite_false]
      exact ih st batch
    · simp only [runLoop, if_neg hs, List.filter_cons, eq_false_of_ne_true hs,
        Bool.not_false, ite_true]
      by_cases hf : bs ≤ (batch ++ [l]).length
      · rw [if_pos hf, ih (processBatch cfg st (batch ++ [l])) []]
        simp only [processBatch, List.nil_append, List.foldl_append, List.foldl_cons,
          List.foldl_nil]
        simp
      · rw [if_neg hf, ih st (batch ++ [l])]
        simp only [List.append_assoc, List.singleton_append]
        simp

theorem loadShape_id (j : Json) : loadShape j = j := by
  induction j using loadShape.induct with
  | case1 kvs ih =>
    rw [loadShape]
    congr 1
    have h0 : ∀ p ∈ kvs.attach, ((p.1.1, loadShape p.1.2) : String × Json) = p.1 := by
      intro p _
      rw [ih p]
    rw [List.map_congr_left h0]
    simp
  | case2 v h =>
    rw [loadShape]
    exact h

theorem convertDD_id (j : Json) : convertDD j = j := by
  induction j using convertDD.induct with
  | case1 kvs ih =>
    rw [convertDD]
    congr 1
    have h0 : ∀ p ∈ kvs.attach, ((p.1.1, convertDD p.1.2) : String × Json) = p.1 := by
      intro p _
      rw [ih p]
    rw [List.map_congr_left h0]
    simp
  | case2 v h =>
    rw [convertDD]
    exact h

theorem langKeysRaw_mem : ∀ (l1 : List (String × Json)) (iso : String),
    iso ∈ langKeysRaw l1 → ∃ w l2, (w, Json.obj l2) ∈ l1 ∧ iso ∈ l2.map Prod.fst := by
  intro l1
  induction l1 with
  | nil => intro iso h; simp [langKeysRaw] at h
  | cons p rest ih =>
    intro iso h
    obtain ⟨w, v⟩ := p
    cases v with
    | obj l2 =>
      simp only [langKeysRaw, List.mem_append] at h
      rcases h with h | h
      · exact ⟨w, l2, List.mem_cons_self _ _, h⟩
      · obtain ⟨w2, l22, hm, hi⟩ := ih iso h
        exact ⟨w2, l22, List.mem_cons_of_mem _ hm, hi⟩
    | null =>
      simp only [langKeysRaw] at h
      obtain ⟨w2, l22, hm, hi⟩ := ih iso h
      exact ⟨w2, l22, List.mem_cons_of_mem _ hm, hi⟩
    | jb b =>
      simp only [langKeysRaw] at h
      obtain ⟨w2, l22, hm, hi⟩ := ih iso h
      exact ⟨w2, l22, List.mem_cons_of_mem _ hm, hi⟩
    | jn n =>
      simp only [langKeysRaw] at h
      obtain ⟨w2, l22, hm, hi⟩ := ih iso h
      exact ⟨w2, l22, List.mem_cons_of_mem _ hm, hi⟩
    | js s =>
      simp only [langKeysRaw] at h
      obtain ⟨w2, l22, hm, hi⟩ := ih iso h
      exact ⟨w2, l22, List.mem_cons_of_mem _ hm, hi⟩
    | arr xs =>
      simp only [langKeysRaw] at h
      obtain ⟨w2, l22, hm, hi⟩ := ih iso h
      exact ⟨w2, l22, List.mem_cons_of_mem _ hm, hi⟩

theorem langKeys_reg (reg : Registry) (idx : Json) (h : idxKeysOK reg idx = true)
    (iso : String) (hm : iso ∈ langKeysOf idx) : (dlookup reg iso).isSome = true := by
  cases idx with
  | obj l1 =>
    simp only [langKeysOf, List.mem_dedup] at hm
    obtain ⟨w, l2, hmem, hiso⟩ := langKeysRaw_mem l1 iso hm
    simp only [idxKeysOK, List.all_eq_true] at h
    have hw := h _ hmem
    simp only [wordValOK, List.all_eq_true] at hw
    obtain ⟨q, hq, hqe⟩ := List.mem_map.1 hiso
    have hb := hw q hq
    simp only [Bool.and_eq_true] at hb
    exact hqe ▸ hb.1
  | null => simp [langKeysOf] at hm
  | jb b => simp [langKeysOf] at hm
  | jn n => simp [langKeysOf] at hm
  | js s => simp [langKeysOf] at hm
  | arr xs => simp [langKeysOf] at hm

theorem insertIdx_lookup3 (idx : Json) (w l c : String) (t : Json)
    (h : idxShaped idx = true) : lookup3 (insertIdx idx w l c t) w l c = some t := by
  cases idx with
  | obj l1 =>
    simp only [idxShaped, List.all_eq_true] at h
    match h1 : dlookup l1 w with
    | none =>
      simp [insertIdx, h1, lookup3, jget, dlookup_dinsert_self, dlookup]
    | some (.obj l2) =>
      have hsh := h _ (dlookup_mem h1)
      simp only [List.all_eq_true] at hsh
      match h2 : dlookup l2 l with
      | none =>
        simp [insertIdx, h1, h2, lookup3, jget, dlookup_dinsert_self, dlookup]
      | some (.obj l3) =>
        simp [insertIdx, h1, h2, lookup3, jget, dlookup_dinsert_self, dlookup]
      | some .null | some (.jb _) | some (.jn _) | some (.js _) | some (.arr _) =>
        have := hsh _ (dlookup_mem h2)
        simp at this
    | some .null | some (.jb _) | some (.jn _) | some (.js _) | some (.arr _) =>
      have := h _ (dlookup_mem h1)
      simp at this
  | null => simp [idxShaped] at h
  | jb b => simp [idxShaped] at h
  | jn n => simp [idxShaped] at h
  | js s => simp [idxShaped] at h
  | arr xs => simp [idxShaped] at h

theorem countAt_bump_self (counts : Counts) (lg k : String) :
    countAt (bump counts lg k) lg k = countAt counts lg k + 1 := by
  simp [countAt, bump, dlookup_dinsert_self]

theorem countAt_bump_other (counts : Counts) (lg k lg2 k2 : String)
    (h : ¬(lg2 = lg ∧ k2 = k)) :
    countAt (bump counts lg k) lg2 k2 = countAt counts lg2 k2 := by
  by_cases hl : lg2 = lg
  · subst hl
    have hk : k2 ≠ k := fun he => h ⟨rfl, he⟩
    simp [countAt, bump, dlookup_dinsert_self, dlookup_dinsert_ne _ _ _ _ hk]
  · simp [countAt, bump, dlookup_dinsert_ne _ _ _ _ hl]

theorem totalScan_cleanFirst_some (reg : Registry) (dtm : List (String × String)) (c : String)
    (counts : Counts) (k : String) (hk : catName dtm c = some k) (hk0 : ¬ k = ("")) :
    ∀ (ls : List Json) (lg : String), cleanFirst reg ls = some lg →
      totalScan reg dtm c counts ls = bump counts lg k := by
  intro ls
  induction ls with
  | nil => intro lg h; simp [cleanFirst] at h
  | cons x rest ih =>
    intro lg h
    cases x with
    | obj lk =>
      simp only [cleanFirst] at h
      simp only [totalScan]
      cases hl : dlookup lk ("language") with
      | some v =>
        cases v with
        | js lg1 =>
          simp only [hl] at h ⊢
          by_cases hr : (dlookup reg lg1).isSome = true
          · rw [if_pos hr] at h ⊢
            cases h
            simp [hk, hk0]
          · rw [if_neg hr] at h ⊢
            exact ih lg h
        | null => simp only [hl] at h ⊢; exact ih lg h
        | jb b => simp only [hl] at h ⊢; exact ih lg h
        | jn n => simp only [hl] at h ⊢; exact ih lg h
        | arr xs => simp only [hl] at h; cases h
        | obj o => simp only [hl] at h; cases h
      | none => simp only [hl] at h ⊢; exact ih lg h
    | null => simp [cleanFirst] at h
    | jb b => simp [cleanFirst] at h
    | jn n => simp [cleanFirst] at h
    | js s => simp [cleanFirst] at h
    | arr xs => simp [cleanFirst] at h

theorem totalScan_cleanFirst_none (reg : Registry) (dtm : List (String × String)) (c : String)
    (counts : Counts) :
    ∀ (ls : List Json), cleanFirst reg ls = none →
      totalScan reg dtm c counts ls = counts := by
  intro ls
  induction ls with
  | nil => intro h; simp [totalScan]
  | cons x rest ih =>
    intro h
    cases x with
    | obj lk =>
      simp only [cleanFirst] at h
      simp only [totalScan]
      cases hl : dlookup lk ("language") with
      | some v =>
        cases v with
        | js lg1 =>
          simp only [hl] at h ⊢
          by_cases hr : (dlookup reg lg1).isSome = true
          · rw [if_pos hr] at h
            cases h
          · rw [if_neg hr] at h ⊢
            exact ih h
        | null => simp only [hl] at h ⊢; exact ih h
        | jb b => simp only [hl] at h ⊢; exact ih h
        | jn n => simp only [hl] at h ⊢; exact ih h
        | arr xs => simp only [hl] at h ⊢
        | obj o => simp only [hl] at h ⊢
      | none => simp only [hl] at h ⊢; exact ih h
    | null => simp [totalScan]
    | jb b => simp [totalScan]
    | jn n => simp [totalScan]
    | js s => simp [totalScan]
    | arr xs => simp [totalScan]

theorem processTrans_insert_eq (reg : Registry) (idx : Json)
    (kvs flkvs restL : List (String × Json)) (k0 w0 wl c nm : String)
    (ss : List Json) (tr : List (String × Json))
    (hlem : dlookup kvs ("lemmas") = some (.obj ((k0, .obj flkvs) :: restL)))
    (hcat : dlookup kvs ("lexicalCategory") = some (.js c)) (hc : ¬ c = (""))
    (hval : dlookup flkvs ("value") = some (.js w0)) (hw : ¬ strLower w0 = (""))
    (hlang : dlookup flkvs ("language") = some (.js wl))
    (hreg : dlookup reg wl = some nm)
    (hsen : dlookup kvs ("senses") = some (.arr ss))
    (htr : sensesFold reg ss [] = some tr) (hne : ¬ tr = []) :
    processTrans reg idx (.obj kvs) = insertIdx idx (strLower w0) wl c (.obj tr) := by
  simp only [processTrans, jgetD, hlem, hcat, hval, hlang, hsen, hreg, Option.getD_some,
    collectSenses, htr, truthy, jkey, hc, if_neg hw, Option.isNone_some, Bool.not_true,
    Bool.or_false, Bool.not_false, if_neg, ite_false, List.isEmpty_eq_true, hne]
  simp [hc, hne]

theorem processTrans_unknownLang (reg : Registry) (idx : Json)
    (kvs flkvs restL : List (String × Json)) (k0 wl : String)
    (hlem : dlookup kvs ("lemmas") = some (.obj ((k0, .obj flkvs) :: restL)))
    (hlang : dlookup flkvs ("language") = some (.js wl))
    (hreg : dlookup reg wl = none) :
    processTrans reg idx (.obj kvs) = idx := by
  simp only [processTrans, jgetD, hlem, hlang, hreg, Option.getD_some, truthy]
  repeat' split
  all_goals simp_all

theorem processTotal_eq (reg : Registry) (dtm : List (String × String)) (counts : Counts)
    (kvs lkvs : List (String × Json)) (c k : String)
    (hcat : dlookup kvs ("lexicalCategory") = some (.js c)) (hc : ¬ c = (""))
    (hk : catName dtm c = some k)
    (hlem : dlookup kvs ("lemmas") = some (.obj lkvs)) :
    processTotal reg dtm counts (.obj kvs) = totalScan reg dtm c counts (lkvs.map Prod.snd) := by
  simp [processTotal, hcat, hc, hk, jgetD, hlem]

theorem processTotal_unknownCat (reg : Registry) (dtm : List (String × String))
    (counts : Counts) (kvs : List (String × Json)) (c : String)
    (hcat : dlookup kvs ("lexicalCategory") = some (.js c))
    (hk : catName dtm c = none) :
    processTotal reg dtm counts (.obj kvs) = counts := by
  by_cases hc : c = ("")
  · simp [processTotal, hcat, hc]
  · simp [processTotal, hcat, hc, hk]

theorem rstripCL_split (cs : List Char) :
    ∃ k, cs = rstripCL cs ++ List.replicate k ',' ∧ ¬ (rstripCL cs).getLast? = some ',' := by
  refine ⟨(cs.reverse.takeWhile (fun c => c = ',')).length, ?_, ?_⟩
  · have h1 : cs = (cs.reverse.dropWhile (fun c => c = ',')).reverse ++
        (cs.reverse.takeWhile (fun c => c = ',')).reverse := by
      rw [← List.reverse_append, List.takeWhile_append_dropWhile, List.reverse_reverse]
    have hall : ∀ b ∈ cs.reverse.takeWhile (fun c => c = ','), b = ',' := by
      intro b hb
      have hp := List.mem_takeWhile_imp hb
      exact of_decide_eq_true hp
    conv_lhs => rw [h1]
    rw [rstripCL, List.eq_replicate_of_mem hall, List.reverse_replicate]
    simp
  · rw [show rstripCL cs = (cs.reverse.dropWhile (fun c => c = ',')).reverse from rfl,
      List.getLast?_reverse]
    have hd := List.head?_dropWhile_not (fun c => decide (c = ',')) cs.reverse
    cases hh : (cs.reverse.dropWhile (fun c => c = ',')).head? with
    | none => simp
    | some x =>
      rw [hh] at hd
      simp only at hd
      intro he
      rw [Option.some.injEq] at he
      rw [he] at hd
      simp at hd

theorem processFile_keysOK (cfg : Config) (bs : Nat) (st : PState)
    (dump : Option (List String)) (h : idxKeysOK cfg.iso_to_name st.word_index = true) :
    idxKeysOK cfg.iso_to_name (processFile cfg bs st dump).1.word_index = true := by
  cases dump with
  | none => exact h
  | some lines =>
    simp only [processFile]
    rw [runLoop_eq]
    exact processBatch_keysOK _ _ _ h

/-- C1: for every run whose dump file path does not exist, the fatal
configuration error is reported (the `FileNotFoundError` handler of
`process_file` fires) and no index file is written — the run produces an
empty write list, so no partial index is persisted. -/
theorem missing_dump_aborts_without_writes (meta : List (String × MetaEntry))
    (dtm : List (String × String)) (language parse_type : Option String)
    (outdir : String) (r : RunResult)
    (h : parseDump meta dtm language parse_type outdir none = .ok r) :
    r.configError = true ∧ r.writes = [] := by
  unfold parseDump at h
  split at h
  · split at h
    · cases h
    · cases h
      exact ⟨rfl, rfl⟩
  · split at h
    · cases h
    · cases h
      exact ⟨rfl, rfl⟩

theorem missing_dump_aborts_without_writes_witness :
    (RunResult.mk [] true).configError = true ∧ (RunResult.mk [] true).writes = [] :=
  missing_dump_aborts_without_writes [] [] none (some ("translations")) ("out")
    (RunResult.mk [] true) (by rfl)

/-- C2 counterexample: loading from a missing file does not leave the store
empty — the prior contents are retained, contradicting the claim's "empty,
valid state (not retaining prior contents)". -/
theorem load_missing_keeps_prior_counterexample :
    loadResult prior0 none = prior0 ∧ ¬ loadResult prior0 none = Json.obj [] := by
  refine ⟨rfl, ?_⟩
  intro h
  rw [show loadResult prior0 none = prior0 from rfl] at h
  simp [prior0] at h

/-- C2 (amended): when `load` hits a missing file or contents that cannot be
deserialized, it reports the error and leaves the store holding exactly its
prior contents — a fully valid state, never partially loaded — and lookups
(total functions in the model) never fail. -/
theorem load_error_keeps_store_amended (prior : Json) (s : String) :
    loadResult prior none = prior ∧
    (jparse s = none → loadResult prior (some s) = prior) := by
  refine ⟨rfl, ?_⟩
  intro h
  simp [loadResult, h]

theorem load_error_keeps_store_amended_witness :
    loadResult prior0 (some ("oops")) = prior0 :=
  (load_error_keeps_store_amended prior0 ("oops")).2 (by rfl)

set_option maxRecDepth 40000 in
/-- C3 counterexample: a line consisting of one JSON lexeme object followed
by TWO trailing commas still parses and yields a record — the fresh store
gains the word — because the source strips all trailing commas, not at most
one; the claim's "parse fails when more than one trailing comma was
present" is false. -/
theorem double_comma_line_counterexample :
    jget st0.word_index ("hello") = none ∧
    jget (processLines cfg0 st0 line0).word_index ("hello") =
      some (Json.obj [(("en"), Json.obj [(("Q1"), Json.obj [(("en"), Json.js ("greeting"))])])]) := by
  constructor
  · rfl
  · rfl

/-- C3 (amended): the entry parser strips surrounding whitespace and then
every trailing comma (however many), parses the remainder as one JSON
object, and on parse failure returns "no record" — the state is unchanged
and no exception propagates (the model is a total function). -/
theorem tolerant_line_strips_all_commas_amended (cfg : Config) (st : PState) (line : String) :
    (jparse (rstripCommas (trimStr line)) = none → processLines cfg st line = st) ∧
    ∃ k, (trimStr line).toList = (rstripCommas (trimStr line)).toList ++ List.replicate k ',' ∧
      ¬ ((rstripCommas (trimStr line)).toList).getLast? = some ',' := by
  constructor
  · intro h
    simp [processLines, h]
  · exact rstripCL_split ((trimStr line).toList)

theorem tolerant_line_strips_all_commas_amended_witness :
    processLines cfg0 st0 ("not json") = st0 :=
  (tolerant_line_strips_all_commas_amended cfg0 st0 ("not json")).1 (by rfl)

/-- C4: a valid lexeme line with non-empty lemmas, a lexical category, a
registry-known anchor language, and at least one registry-language gloss
makes the index map the lowercased anchor word at
[word][anchor-language][category] to exactly the collected gloss set,
replacing whatever any prior store (quantified `st`) held at that triple —
last-write-wins under the sequential fold. -/
theorem translation_insert_exact (reg : Registry) (dtm : List (String × String))
    (st : PState) (line : String)
    (kvs flkvs restL : List (String × Json)) (k0 w0 wl c nm : String)
    (ss : List Json) (tr : List (String × Json))
    (hp : jparse (rstripCommas (trimStr line)) = some (.obj kvs))
    (hlem : dlookup kvs ("lemmas") = some (.obj ((k0, .obj flkvs) :: restL)))
    (hcat : dlookup kvs ("lexicalCategory") = some (.js c)) (hc : ¬ c = (""))
    (hval : dlookup flkvs ("value") = some (.js w0)) (hw : ¬ strLower w0 = (""))
    (hlang : dlookup flkvs ("language") = some (.js wl))
    (hreg : dlookup reg wl = some nm)
    (hsen : dlookup kvs ("senses") = some (.arr ss))
    (htr : sensesFold reg ss [] = some tr) (hne : ¬ tr = [])
    (hsh : idxShaped st.word_index = true) :
    processLines { iso_to_name := reg, parse_type := some ("translations"), dtm := dtm } st line =
      { word_index := insertIdx st.word_index (strLower w0) wl c (.obj tr), counts := st.counts } ∧
    lookup3 (processLines { iso_to_name := reg, parse_type := some ("translations"), dtm := dtm }
        st line).word_index (strLower w0) wl c = some (.obj tr) := by
  have h1 : processLines { iso_to_name := reg, parse_type := some ("translations"), dtm := dtm } st line =
      { word_index := insertIdx st.word_index (strLower w0) wl c (.obj tr), counts := st.counts } := by
    simp only [processLines, hp]
    rw [if_pos trivial]
    rw [processTrans_insert_eq reg st.word_index kvs flkvs restL k0 w0 wl c nm ss tr
      hlem hcat hc hval hw hlang hreg hsen htr hne]
  refine ⟨h1, ?_⟩
  rw [h1]
  exact insertIdx_lookup3 st.word_index (strLower w0) wl c (.obj tr) hsh

set_option maxRecDepth 40000 in
theorem translation_insert_exact_witness :
    lookup3 (processLines cfg0 st0 lineOk).word_index (("hello")) (("en")) (("Q1")) =
      some (Json.obj tr0) :=
  (translation_insert_exact reg0 dtm0 st0 lineOk kvs0 flkvs0 [] ("en") ("Hello") ("en")
    ("Q1") ("english") ss0 tr0 (by rfl) (by rfl) (by rfl) (by decide) (by rfl) (by decide)
    (by rfl) (by rfl) (by rfl) (by rfl) (by simp [tr0]) (by rfl)).2

/-- C5: a line whose anchor-language code is absent from the registry leaves
the WordIndex unchanged, and translation-mode processing preserves the
invariant that every ISO code stored as a language key (anchor level or
gloss level) was known to the registry at insertion time — unknown-language
data is dropped before insertion. -/
theorem registry_key_invariant (reg : Registry) (dtm : List (String × String))
    (st : PState) (line : String) (kvs flkvs restL : List (String × Json))
    (k0 wl : String) :
    (jparse (rstripCommas (trimStr line)) = some (.obj kvs) →
      dlookup kvs ("lemmas") = some (.obj ((k0, .obj flkvs) :: restL)) →
      dlookup flkvs ("language") = some (.js wl) →
      dlookup reg wl = none →
      processLines { iso_to_name := reg, parse_type := some ("translations"), dtm := dtm } st line = st) ∧
    (idxKeysOK reg st.word_index = true →
      idxKeysOK reg (processLines { iso_to_name := reg, parse_type := some ("translations"), dtm := dtm }
        st line).word_index = true) := by
  constructor
  · intro hp hlem hlang hreg
    simp only [processLines, hp]
    rw [if_pos trivial]
    rw [processTrans_unknownLang reg st.word_index kvs flkvs restL k0 wl hlem hlang hreg]
  · intro h
    exact processLines_keysOK { iso_to_name := reg, parse_type := some ("translations"), dtm := dtm }
      st line h

set_option maxRecDepth 40000 in
theorem registry_key_invariant_witness :
    processLines cfg0 st0 lineDe = st0 ∧
    idxKeysOK reg0 (processLines cfg0 st0 lineOk).word_index = true :=
  ⟨(registry_key_invariant reg0 dtm0 st0 lineDe kvsDe flkvsDe [] ("de") ("de")).1
      (by rfl) (by rfl) (by rfl) (by rfl),
   (registry_key_invariant reg0 dtm0 st0 lineOk kvs0 flkvs0 [] ("en") ("en")).2 (by rfl)⟩

/-- C6: saving the whole index and loading the saved content back yields a
store whose lookup results agree with the original store on every word:
`_convert_defaultdict_to_dict` and `_recursive_update` both preserve the
nested mapping exactly. -/
theorem save_load_round_trip (l1 : List (String × Json)) (w : String) :
    getWordInfo (loadFromContent (savedContent (.obj l1))) w = getWordInfo (.obj l1) w := by
  rw [savedContent, convertDD_id]
  simp only [loadFromContent]
  rw [loadShape_id]

/-- C7: the batch size has no semantic effect — processing the same dump
with any two batch sizes produces identical final processor states (in
particular identical WordIndexes); every line is processed independently in
original order. -/
theorem batch_size_irrelevant (cfg : Config) (b1 b2 : Nat) (st : PState)
    (dump : Option (List String)) :
    processFile cfg b1 st dump = processFile cfg b2 st dump := by
  cases dump with
  | none => rfl
  | some lines =>
    simp only [processFile]
    rw [runLoop_eq, runLoop_eq]

/-- C8: in total-count mode a lexeme with a known category code contributes
exactly one occurrence, attributed to (language of the first
registry-language lemma, the category's name) — later lemmas contribute
nothing, and a lexeme with an unknown category or no registry-language
lemma contributes zero. -/
theorem total_mode_counts (reg : Registry) (dtm : List (String × String)) (counts : Counts)
    (kvs lkvs : List (String × Json)) (c k lg : String)
    (hcat : dlookup kvs ("lexicalCategory") = some (.js c)) (hc : ¬ c = ("")) :
    ((catName dtm c = some k → ¬ k = ("") →
      dlookup kvs ("lemmas") = some (.obj lkvs) →
      cleanFirst reg (lkvs.map Prod.snd) = some lg →
      processTotal reg dtm counts (.obj kvs) = bump counts lg k ∧
      countAt (bump counts lg k) lg k = countAt counts lg k + 1 ∧
      ∀ lg2 k2, ¬(lg2 = lg ∧ k2 = k) →
        countAt (bump counts lg k) lg2 k2 = countAt counts lg2 k2) ∧
    (catName dtm c = none → processTotal reg dtm counts (.obj kvs) = counts) ∧
    (catName dtm c = some k → dlookup kvs ("lemmas") = some (.obj lkvs) →
      cleanFirst reg (lkvs.map Prod.snd) = none →
      processTotal reg dtm counts (.obj kvs) = counts)) := by
  refine ⟨?_, ?_, ?_⟩
  · intro hk hk0 hlem hcf
    refine ⟨?_, countAt_bump_self _ _ _, fun lg2 k2 h2 => countAt_bump_other _ _ _ _ _ h2⟩
    rw [processTotal_eq reg dtm counts kvs lkvs c k hcat hc hk hlem]
    exact totalScan_cleanFirst_some reg dtm c counts k hk hk0 _ lg hcf
  · intro hk
    exact processTotal_unknownCat reg dtm counts kvs c hcat hk
  · intro hk hlem hcf
    rw [processTotal_eq reg dtm counts kvs lkvs c k hcat hc hk hlem]
    exact totalScan_cleanFirst_none reg dtm c counts _ hcf

theorem total_mode_counts_witness :
    processTotal reg0 dtm0 [] (.obj kvsT) = bump [] ("en") ("verbs") :=
  ((total_mode_counts reg0 dtm0 [] kvsT lkvsT ("Q2000") ("verbs") ("en")
      (by rfl) (by decide)).1 (by rfl) (by decide) (by rfl) (by rfl)).1

/-- C9: evaluation at the failing input — registry construction for a
target language that the metadata represents only via sub-languages raises
`KeyError` (`data["iso"]` on an entry without a top-level code) instead of
registering the matching sub-language codes mapped to the parent's name, as
the claim (and the source's own comment about including "the target
language and its sublanguages") requires. -/
theorem registry_target_sublanguage_crash :
    buildRegistry (some ("norwegian")) metaN [] = .error () := by rfl

/-- C10: in translation mode the driver writes exactly one per-language
index file for each ISO code occurring as a language key of the built
WordIndex, each under the canonical-name subdirectory, and never writes the
announced combined index path (its two-segment path differs from every
three-segment per-language path); nothing else is written. -/
theorem translation_mode_write_frame (meta : List (String × MetaEntry))
    (dtm : List (String × String)) (language parse_type : Option String)
    (outdir : String) (dump : Option (List String)) (reg : Registry) (r : RunResult)
    (hpt : ¬ parse_type = some ("total"))
    (hreg : buildRegistry language meta [] = .ok reg)
    (hrun : parseDump meta dtm language parse_type outdir dump = .ok r) :
    (∀ p, p ∈ r.writes →
      ∃ iso nm, iso ∈ langKeysOf (builtIndex meta dtm language parse_type dump) ∧
        dlookup reg iso = some nm ∧
        p = ([outdir, nm, indexFileName parse_type],
          filteredIndex (builtIndex meta dtm language parse_type dump) iso)) ∧
    (∀ iso, iso ∈ langKeysOf (builtIndex meta dtm language parse_type dump) →
      ∃ nm, dlookup reg iso = some nm ∧
        ([outdir, nm, indexFileName parse_type],
          filteredIndex (builtIndex meta dtm language parse_type dump) iso) ∈ r.writes) ∧
    (∀ c, ¬ ([outdir, indexFileName parse_type], c) ∈ r.writes) := by
  have hidx : builtIndex meta dtm language parse_type dump =
      (processFile { iso_to_name := reg, parse_type := parse_type, dtm := dtm } 1000
        { word_index := .obj [], counts := [] } dump).1.word_index := by
    simp only [builtIndex, hreg]
  have hOK : idxKeysOK reg (builtIndex meta dtm language parse_type dump) = true := by
    rw [hidx]
    exact processFile_keysOK { iso_to_name := reg, parse_type := parse_type, dtm := dtm }
      1000 { word_index := .obj [], counts := [] } dump (by simp [idxKeysOK])
  have hw : r.writes = (langKeysOf (builtIndex meta dtm language parse_type dump)).filterMap
      (saveIndexWrite reg (builtIndex meta dtm language parse_type dump) outdir
        (indexFileName parse_type)) := by
    unfold parseDump at hrun
    rw [if_neg hpt] at hrun
    rw [hreg] at hrun
    cases hrun
    rw [hidx]
  refine ⟨?_, ?_, ?_⟩
  · intro p hp
    rw [hw] at hp
    obtain ⟨iso, hiso, hsw⟩ := List.mem_filterMap.1 hp
    revert hsw
    unfold saveIndexWrite
    cases hnm : dlookup reg iso with
    | none => intro hsw; cases hsw
    | some nm =>
      intro hsw
      cases hsw
      exact ⟨iso, nm, hiso, hnm, rfl⟩
  · intro iso hiso
    have hs := langKeys_reg reg _ hOK iso hiso
    obtain ⟨nm, hnm⟩ := Option.isSome_iff_exists.1 hs
    refine ⟨nm, hnm, ?_⟩
    rw [hw]
    refine List.mem_filterMap.2 ⟨iso, hiso, ?_⟩
    simp [saveIndexWrite, hnm]
  · intro c hc
    rw [hw] at hc
    obtain ⟨iso, hiso, hsw⟩ := List.mem_filterMap.1 hc
    revert hsw
    unfold saveIndexWrite
    cases hnm : dlookup reg iso with
    | none => intro hsw; cases hsw
    | some nm =>
      intro hsw
      have := congrArg Prod.fst (Option.some.inj hsw)
      simp at this

set_option maxRecDepth 40000 in
theorem translation_mode_write_frame_witness :
    ¬ (([("out"), ("lexeme_index_translations.json")], Json.obj []) ∈ rw1.writes) :=
  (translation_mode_write_frame meta0 dtm0 none (some ("translations")) ("out")
      (some [("["), lineOk, ("]")]) reg0 rw1 (by decide) (by rfl) (by rfl)).2.2 (Json.obj [])
